import Mathlib

/-!
Verification of the embeddings server (server.js, final variant).

The development shallowly embeds the three request handlers of the
server — POST /embed, POST /match and POST /ingest-all-closed —
as pure Lean functions over an explicit store state, together with
the external collaborators (embedding provider, ticket source,
vector distance) as function parameters.  External effects that the
claims observe (provider calls, page fetches) are made explicit as
logs threaded through the state.
-/

namespace EmbeddingsServer

/-! ### Model of JavaScript String.prototype.trim

JS `s.trim()` removes leading and trailing whitespace.  We model it
on the character list of the string, so that its algebraic facts
(notably idempotence, needed because the bulk-ingestion loop trims a
summary and the /embed handler trims it again) are provable. -/

/-- Remove leading and trailing whitespace characters from a list. -/
def trimChars (l : List Char) : List Char :=
  ((l.dropWhile Char.isWhitespace).reverse.dropWhile Char.isWhitespace).reverse

/-- Model of JS `String.prototype.trim`. -/
def jsTrim (s : String) : String :=
  ⟨trimChars s.data⟩

theorem head?_dropWhile_not (p : Char → Bool) :
    ∀ (l : List Char) (c : Char), (l.dropWhile p).head? = some c → p c = false := by
  intro l
  induction l with
  | nil => intro c h; simp [List.dropWhile] at h
  | cons a t ih =>
      intro c h
      by_cases hpa : p a
      · rw [List.dropWhile_cons_of_pos hpa] at h
        exact ih c h
      · rw [List.dropWhile_cons_of_neg hpa] at h
        simp at h
        subst h
        simpa using hpa

theorem dropWhile_eq_self_of_head (p : Char → Bool) (l : List Char)
    (h : ∀ c, l.head? = some c → p c = false) : l.dropWhile p = l := by
  cases l with
  | nil => rfl
  | cons a t =>
      have ha : p a = false := h a rfl
      simp [List.dropWhile_cons, ha]

theorem dropWhile_dropWhile_self (p : Char → Bool) (l : List Char) :
    (l.dropWhile p).dropWhile p = l.dropWhile p :=
  dropWhile_eq_self_of_head p _ (head?_dropWhile_not p l)

theorem getLast?_dropWhile (p : Char → Bool) :
    ∀ l : List Char, l.dropWhile p = [] ∨ (l.dropWhile p).getLast? = l.getLast? := by
  intro l
  induction l with
  | nil => left; rfl
  | cons a t ih =>
      by_cases hpa : p a
      · rw [List.dropWhile_cons_of_pos hpa]
        by_cases ht : t.dropWhile p = []
        · left; exact ht
        · right
          rcases ih with h | h
          · exact absurd h ht
          · rw [h]
            have htne : t ≠ [] := by
              intro he; subst he; exact ht rfl
            cases t with
            | nil => exact absurd rfl htne
            | cons x xs => rw [List.getLast?_cons_cons]
      · rw [List.dropWhile_cons_of_neg hpa]
        right; rfl

theorem trimChars_idem (l : List Char) : trimChars (trimChars l) = trimChars l := by
  set p := Char.isWhitespace with hp
  set A := l.dropWhile p with hA
  set B := A.reverse.dropWhile p with hB
  have hTl : trimChars l = B.reverse := rfl
  -- head of B.reverse is not whitespace (it is the head of A)
  have hhead : ∀ c, B.reverse.head? = some c → p c = false := by
    intro c hc
    rw [List.head?_reverse] at hc
    rcases getLast?_dropWhile p A.reverse with h | h
    · rw [hB] at hc
      rw [h] at hc
      simp at hc
    · rw [hB] at hc
      rw [h] at hc
      rw [List.getLast?_reverse] at hc
      exact head?_dropWhile_not p l c (by rw [← hA]; exact hc)
  have h1 : B.reverse.dropWhile p = B.reverse :=
    dropWhile_eq_self_of_head p _ hhead
  show ((B.reverse.dropWhile p).reverse.dropWhile p).reverse = B.reverse
  rw [h1, List.reverse_reverse, hB, dropWhile_dropWhile_self]

theorem jsTrim_idem (s : String) : jsTrim (jsTrim s) = jsTrim s := by
  show (⟨trimChars (trimChars s.data)⟩ : String) = ⟨trimChars s.data⟩
  rw [trimChars_idem]

/-! ### Data model: the persisted table `ticket_embeddings`

One row per ticket number (enforced by the unique key / ON CONFLICT
clause).  The embedding vector is an abstract numeric vector coming
from the external provider; we model its components as integers
(the claims never depend on the arithmetic of the components). -/

structure EmbeddingEntry where
  ticketNumber : Nat
  summary : String
  embedding : List Int
  createdAt : Nat
deriving Repr, DecidableEq

/-- `SELECT 1 FROM ticket_embeddings WHERE ticket_number = $1 LIMIT 1`
followed by `rowCount > 0`. -/
def storeExists (store : List EmbeddingEntry) (tn : Nat) : Bool :=
  store.any (fun e => e.ticketNumber == tn)

/-- The upsert issued by /embed:
`INSERT ... ON CONFLICT (ticket_number) DO UPDATE SET summary, embedding,
created_at = NOW()`.  An existing row with the key is overwritten in
place; otherwise a new row is appended. -/
def storeUpsert (store : List EmbeddingEntry) (tn : Nat) (summary : String)
    (embedding : List Int) (now : Nat) : List EmbeddingEntry :=
  if storeExists store tn then
    store.map (fun e => if e.ticketNumber == tn then ⟨tn, summary, embedding, now⟩ else e)
  else
    store ++ [⟨tn, summary, embedding, now⟩]

/-- Surrogate row id (`RETURNING id`): the position of the row for the
key in the table.  Stable across updates because rows are replaced in
place and never deleted. -/
def storeId (store : List EmbeddingEntry) (tn : Nat) : Nat :=
  store.findIdx (fun e => e.ticketNumber == tn)

/-- First row stored under a ticket number. -/
def storeFind (store : List EmbeddingEntry) (tn : Nat) : Option EmbeddingEntry :=
  store.find? (fun e => e.ticketNumber == tn)

/-- The uniqueness invariant: at most one row per ticket number. -/
def keysNodup (store : List EmbeddingEntry) : Prop :=
  (store.map (fun e => e.ticketNumber)).Nodup

/-! ### POST /embed — single-record ingest -/

/-- Outcome of the /embed handler:
400 with the validation message and providedLength, 500 when the
provider call fails or returns a non-array, or 200 with the row id
and the vector dimensionality. -/
inductive EmbedResult where
  | validationError (error : String) (providedLength : Nat)
  | providerError
  | ok (id : Nat) (dims : Nat)
deriving Repr, DecidableEq

/-- `embedRes.ok` in the bulk loop: HTTP status in the 2xx range,
which for this handler means the 200 success response. -/
def embedOk : EmbedResult → Bool
  | .ok _ _ => true
  | _ => false

structure EmbedOutcome where
  result : EmbedResult
  store : List EmbeddingEntry
  /-- Texts sent to the embedding provider by this invocation. -/
  providerCalls : List String
deriving Repr, DecidableEq

/-- The /embed handler.  `provider` models
`client.embeddings.create` : `none` is a thrown error or a malformed
(non-array) response, `some v` a returned vector.  `now` is the value
of `NOW()` for this request. -/
def embedHandler (provider : String → Option (List Int)) (now : Nat)
    (store : List EmbeddingEntry) (ticketNumber : Nat) (summary : String) :
    EmbedOutcome :=
  let cleanSummary := jsTrim summary
  if cleanSummary.isEmpty || cleanSummary.length < 10 then
    ⟨.validationError "summary must be at least 10 characters" cleanSummary.length,
      store, []⟩
  else
    match provider cleanSummary with
    | none => ⟨.providerError, store, [cleanSummary]⟩
    | some embedding =>
        let store' := storeUpsert store ticketNumber cleanSummary embedding now
        ⟨.ok (storeId store' ticketNumber) embedding.length, store', [cleanSummary]⟩

/-! ### POST /match — nearest-neighbor query

The pgvector distance operator is an external collaborator, modelled
as a parameter `dist` returning a rational distance.  The SQL is
`SELECT ticket_number, summary, embedding <=> $1 AS distance
 FROM ticket_embeddings WHERE embedding IS NOT NULL
 ORDER BY distance ASC LIMIT 5`.
Every row of the model has a (non-null) embedding, so the WHERE
clause keeps all rows. -/

structure MatchRow where
  ticket_number : Nat
  summary : String
  distance : ℚ
deriving Repr, DecidableEq

/-- The ascending-distance order of the ORDER BY clause. -/
def rowLE (a b : MatchRow) : Prop :=
  a.distance ≤ b.distance

instance : DecidableRel rowLE :=
  fun a b => inferInstanceAs (Decidable (a.distance ≤ b.distance))

instance : IsTotal MatchRow rowLE :=
  ⟨fun a b => le_total a.distance b.distance⟩

instance : IsTrans MatchRow rowLE :=
  ⟨fun _ _ _ hab hbc => le_trans hab hbc⟩

/-- Rows produced by the search SQL: all rows tagged with their
distance to the query vector, sorted ascending, first 5. -/
def searchRows (dist : List Int → List Int → ℚ) (queryEmbedding : List Int)
    (store : List EmbeddingEntry) : List MatchRow :=
  (List.insertionSort rowLE
    (store.map (fun e => MatchRow.mk e.ticketNumber e.summary (dist queryEmbedding e.embedding)))).take 5

inductive MatchResult where
  | validationError (error : String) (providedLength : Nat)
  | providerError
  | ok (count : Nat) (results : List MatchRow)
deriving Repr, DecidableEq

/-- The /match handler: same validation as /embed, then one provider
call for the query embedding, then the vector search. -/
def matchHandler (provider : String → Option (List Int))
    (dist : List Int → List Int → ℚ) (store : List EmbeddingEntry)
    (summary : String) : MatchResult :=
  let cleanSummary := jsTrim summary
  if cleanSummary.isEmpty || cleanSummary.length < 10 then
    .validationError "summary must be at least 10 characters" cleanSummary.length
  else
    match provider cleanSummary with
    | none => .providerError
    | some queryEmbedding =>
        let rows := searchRows dist queryEmbedding store
        .ok rows.length rows

/-! ### POST /ingest-all-closed — bulk ingestion

The remote ticket source is modelled as a list of pages; fetching
page `n` returns the n-th element, and any page past the end of the
list is an empty page (the source is exhausted).  A page is either a
payload that fails `JSON.parse` (carrying the raw text), a payload
that parses but is not an array, or a parsed array of tickets. -/

structure Ticket where
  id : Nat
  summary : String
deriving Repr, DecidableEq

inductive Page where
  | malformed (raw : String)
  | nonArray
  | records (tickets : List Ticket)
deriving Repr, DecidableEq

/-- Mutable state of one /ingest-all-closed invocation, plus the log
of texts sent to the embedding provider (observable side effect). -/
structure IngestState where
  store : List EmbeddingEntry
  processed : Nat
  inserted : Nat
  skipped : Nat
  shortSummaries : Nat
  providerCalls : List String
deriving Repr, DecidableEq

def initState (store : List EmbeddingEntry) : IngestState :=
  ⟨store, 0, 0, 0, 0, []⟩

/-- The condition `!summary || summary.length < 10` on the trimmed
summary of a ticket. -/
def isShort (s : String) : Bool :=
  s.isEmpty || s.length < 10

/-- The body of the per-ticket loop, apart from the limit check:
classify the record as short / duplicate / ingest-attempt, then
`processed++`.  The ingest attempt POSTs to the local /embed
endpoint and counts `inserted` only when the response is 2xx. -/
def recordStep (provider : String → Option (List Int)) (now : Nat)
    (s : IngestState) (t : Ticket) : IngestState :=
  if isShort (jsTrim t.summary) then
    { s with shortSummaries := s.shortSummaries + 1, processed := s.processed + 1 }
  else if storeExists s.store t.id then
    { s with skipped := s.skipped + 1, processed := s.processed + 1 }
  else if embedOk (embedHandler provider now s.store t.id (jsTrim t.summary)).result then
    { s with store := (embedHandler provider now s.store t.id (jsTrim t.summary)).store,
             providerCalls := s.providerCalls ++
               (embedHandler provider now s.store t.id (jsTrim t.summary)).providerCalls,
             inserted := s.inserted + 1,
             processed := s.processed + 1 }
  else
    { s with store := (embedHandler provider now s.store t.id (jsTrim t.summary)).store,
             providerCalls := s.providerCalls ++
               (embedHandler provider now s.store t.id (jsTrim t.summary)).providerCalls,
             processed := s.processed + 1 }

/-- The per-ticket loop over one page.  Returns the new state and
whether the early return on the limit fired
(`limit > 0 && processed >= limit` checked after each record). -/
def processTickets (provider : String → Option (List Int)) (now : Nat)
    (limit : Nat) (s : IngestState) : List Ticket → IngestState × Bool
  | [] => (s, false)
  | t :: ts =>
      let s' := recordStep provider now s t
      if 0 < limit && limit ≤ s'.processed then (s', true)
      else processTickets provider now limit s' ts

/-- How one invocation ended: the loop broke out normally, the limit
early-return fired, or JSON.parse failed on a page payload. -/
inductive IngestOutcome where
  | completed
  | limitStop
  | invalidJson (raw : String)
deriving Repr, DecidableEq

/-- The `while (true)` page loop.  Returns the final state, the list
of page numbers fetched (in fetch order), and the outcome. -/
def ingestPages (provider : String → Option (List Int)) (now : Nat)
    (limit : Nat) (page : Nat) (s : IngestState) :
    List Page → IngestState × List Nat × IngestOutcome
  | [] => (s, [page], .completed)
  | .malformed raw :: _ => (s, [page], .invalidJson raw)
  | .nonArray :: _ => (s, [page], .completed)
  | .records tickets :: rest =>
      if tickets.isEmpty then (s, [page], .completed)
      else
        let r := processTickets provider now limit s tickets
        if r.2 then (r.1, [page], .limitStop)
        else
          let rec' := ingestPages provider now limit (page + 1) r.1 rest
          (rec'.1, page :: rec'.2.1, rec'.2.2)

/-- The JSON response of /ingest-all-closed. -/
inductive IngestResult where
  | success (inserted : Nat) (skipped : Nat) (shortSummaries : Nat) (note : Option String)
  | sourceError (error : String) (raw : String)
deriving Repr, DecidableEq

def stopNote (limit : Nat) : String :=
  "Stopped early after processing " ++ toString limit ++ " tickets"

structure IngestRun where
  result : IngestResult
  state : IngestState
  fetchLog : List Nat
deriving Repr, DecidableEq

/-- The /ingest-all-closed handler: counters start at zero, the page
counter starts at 1, and the response is assembled from the outcome. -/
def ingestAllClosed (provider : String → Option (List Int)) (now : Nat)
    (limit : Nat) (store : List EmbeddingEntry) (pages : List Page) : IngestRun :=
  let r := ingestPages provider now limit 1 (initState store) pages
  match r.2.2 with
  | .completed =>
      ⟨.success r.1.inserted r.1.skipped r.1.shortSummaries none, r.1, r.2.1⟩
  | .limitStop =>
      ⟨.success r.1.inserted r.1.skipped r.1.shortSummaries (some (stopNote limit)),
        r.1, r.2.1⟩
  | .invalidJson raw =>
      ⟨.sourceError "CW returned invalid JSON" raw, r.1, r.2.1⟩

/-- Iterated bulk-ingestion runs against a fixed source population,
carrying the store from one run to the next. -/
def ingestIter (provider : String → Option (List Int)) (now : Nat)
    (limit : Nat) (pages : List Page) :
    Nat → List EmbeddingEntry → List EmbeddingEntry
  | 0, store => store
  | n + 1, store =>
      ingestIter provider now limit pages n
        (ingestAllClosed provider now limit store pages).state.store

/-- A ticket qualifies when its trimmed summary passes the length
check (it reaches the duplicate check / ingest attempt). -/
def qualifies (t : Ticket) : Bool :=
  !isShort (jsTrim t.summary)

/-! ### Store lemmas -/

theorem storeExists_iff {store : List EmbeddingEntry} {k : Nat} :
    storeExists store k = true ↔ ∃ e ∈ store, e.ticketNumber = k := by
  simp [storeExists, List.any_eq_true]

theorem storeExists_upsert_self (store : List EmbeddingEntry) (tn : Nat)
    (summary : String) (embedding : List Int) (now : Nat) :
    storeExists (storeUpsert store tn summary embedding now) tn = true := by
  unfold storeUpsert
  by_cases h : storeExists store tn = true
  · rw [if_pos h]
    rcases storeExists_iff.mp h with ⟨e, he, hk⟩
    refine storeExists_iff.mpr ⟨⟨tn, summary, embedding, now⟩, ?_, rfl⟩
    refine List.mem_map.mpr ⟨e, he, ?_⟩
    rw [if_pos (by simpa using hk)]
  · rw [if_neg h]
    exact storeExists_iff.mpr ⟨⟨tn, summary, embedding, now⟩, by simp, rfl⟩

theorem storeExists_upsert_mono {store : List EmbeddingEntry} {k : Nat}
    (tn : Nat) (summary : String) (embedding : List Int) (now : Nat)
    (h : storeExists store k = true) :
    storeExists (storeUpsert store tn summary embedding now) k = true := by
  rcases storeExists_iff.mp h with ⟨e, he, hk⟩
  unfold storeUpsert
  by_cases hex : storeExists store tn = true
  · rw [if_pos hex]
    by_cases hme : e.ticketNumber = tn
    · refine storeExists_iff.mpr ⟨⟨tn, summary, embedding, now⟩, ?_, by simp [← hme, hk]⟩
      exact List.mem_map.mpr ⟨e, he, by rw [if_pos (by simpa using hme)]⟩
    · refine storeExists_iff.mpr ⟨e, ?_, hk⟩
      exact List.mem_map.mpr ⟨e, he, by rw [if_neg (by simpa using hme)]⟩
  · rw [if_neg hex]
    exact storeExists_iff.mpr ⟨e, List.mem_append_left _ he, hk⟩

theorem storeExists_upsert_sub {store : List EmbeddingEntry} {k : Nat}
    {tn : Nat} {summary : String} {embedding : List Int} {now : Nat}
    (h : storeExists (storeUpsert store tn summary embedding now) k = true) :
    storeExists store k = true ∨ k = tn := by
  unfold storeUpsert at h
  by_cases hex : storeExists store tn = true
  · rw [if_pos hex] at h
    rcases storeExists_iff.mp h with ⟨e, he, hk⟩
    rcases List.mem_map.mp he with ⟨e₀, he₀, heq⟩
    by_cases hme : e₀.ticketNumber = tn
    · rw [if_pos (by simpa using hme)] at heq
      right
      rw [← hk, ← heq]
    · rw [if_neg (by simpa using hme)] at heq
      left
      exact storeExists_iff.mpr ⟨e₀, he₀, by rw [heq, hk]⟩
  · rw [if_neg hex] at h
    rcases storeExists_iff.mp h with ⟨e, he, hk⟩
    rcases List.mem_append.mp he with h₁ | h₂
    · left; exact storeExists_iff.mpr ⟨e, h₁, hk⟩
    · right; simp at h₂; rw [← hk, h₂]

theorem find?_map_replace (summary : String) (embedding : List Int) (now : Nat) :
    ∀ (store : List EmbeddingEntry) (tn : Nat), storeExists store tn = true →
    (store.map (fun e => if e.ticketNumber == tn then
        (⟨tn, summary, embedding, now⟩ : EmbeddingEntry) else e)).find?
      (fun e => e.ticketNumber == tn) = some ⟨tn, summary, embedding, now⟩ := by
  intro store tn h
  induction store with
  | nil => simp [storeExists] at h
  | cons a t ih =>
      rw [List.map_cons]
      by_cases ha : a.ticketNumber = tn
      · rw [if_pos (by simpa using ha)]
        rw [List.find?_cons_of_pos _ (by simp)]
      · rw [if_neg (by simpa using ha)]
        rw [List.find?_cons_of_neg _ (by simpa using ha)]
        apply ih
        rcases storeExists_iff.mp h with ⟨e, he, hk⟩
        rcases List.mem_cons.mp he with h₁ | h₂
        · exact absurd (h₁ ▸ hk) ha
        · exact storeExists_iff.mpr ⟨e, h₂, hk⟩

/-- Upsert on an existing key rewrites the row in place: same number
of rows, and the row found under the key carries the new summary,
embedding and timestamp. -/
theorem storeUpsert_replaces {store : List EmbeddingEntry} {tn : Nat}
    (summary : String) (embedding : List Int) (now : Nat)
    (h : storeExists store tn = true) :
    (storeUpsert store tn summary embedding now).length = store.length ∧
      storeFind (storeUpsert store tn summary embedding now) tn =
        some ⟨tn, summary, embedding, now⟩ := by
  unfold storeUpsert
  rw [if_pos h]
  constructor
  · exact List.length_map _ _
  · exact find?_map_replace summary embedding now store tn h

/-- Upsert on a fresh key appends exactly the new row. -/
theorem storeUpsert_appends {store : List EmbeddingEntry} {tn : Nat}
    (summary : String) (embedding : List Int) (now : Nat)
    (h : storeExists store tn = false) :
    storeUpsert store tn summary embedding now =
      store ++ [⟨tn, summary, embedding, now⟩] := by
  unfold storeUpsert
  rw [if_neg (by simp [h])]

/-- Upsert never changes the multiset of keys on an existing key, and
adds exactly the new key on a fresh key; in both cases a duplicate-free
key column stays duplicate-free. -/
theorem keysNodup_upsert {store : List EmbeddingEntry} (tn : Nat)
    (summary : String) (embedding : List Int) (now : Nat)
    (h : keysNodup store) :
    keysNodup (storeUpsert store tn summary embedding now) := by
  unfold storeUpsert
  by_cases hex : storeExists store tn = true
  · rw [if_pos hex]
    unfold keysNodup at h ⊢
    have hmapeq :
        (store.map (fun e => if e.ticketNumber == tn then
            (⟨tn, summary, embedding, now⟩ : EmbeddingEntry) else e)).map
          (fun e => e.ticketNumber) = store.map (fun e => e.ticketNumber) := by
      rw [List.map_map]
      apply List.map_congr_left
      intro e _
      by_cases he : e.ticketNumber = tn
      · simp [he]
      · simp [he]
    rw [hmapeq]
    exact h
  · rw [if_neg hex]
    unfold keysNodup at h ⊢
    rw [List.map_append]
    refine List.Nodup.append h (by simp) ?_
    intro k hk₁ hk₂
    simp at hk₂
    rcases List.mem_map.mp hk₁ with ⟨e, he, hke⟩
    exact hex (storeExists_iff.mpr ⟨e, he, by rw [hke, hk₂]⟩)

/-! ### /embed handler case lemmas -/

theorem embedHandler_validation {provider : String → Option (List Int)} {now : Nat}
    {store : List EmbeddingEntry} {tn : Nat} {summary : String}
    (h : isShort (jsTrim summary) = true) :
    embedHandler provider now store tn summary =
      ⟨.validationError "summary must be at least 10 characters" (jsTrim summary).length,
        store, []⟩ := by
  unfold embedHandler
  unfold isShort at h
  rw [if_pos (by simpa using h)]

theorem embedHandler_providerFail {provider : String → Option (List Int)} {now : Nat}
    {store : List EmbeddingEntry} {tn : Nat} {summary : String}
    (h : isShort (jsTrim summary) = false) (hp : provider (jsTrim summary) = none) :
    embedHandler provider now store tn summary = ⟨.providerError, store, [jsTrim summary]⟩ := by
  unfold embedHandler
  unfold isShort at h
  rw [if_neg (by simpa using h), hp]

theorem embedHandler_success {provider : String → Option (List Int)} {now : Nat}
    {store : List EmbeddingEntry} {tn : Nat} {summary : String} {embedding : List Int}
    (h : isShort (jsTrim summary) = false) (hp : provider (jsTrim summary) = some embedding) :
    embedHandler provider now store tn summary =
      ⟨.ok (storeId (storeUpsert store tn (jsTrim summary) embedding now) tn) embedding.length,
        storeUpsert store tn (jsTrim summary) embedding now, [jsTrim summary]⟩ := by
  unfold embedHandler
  unfold isShort at h
  rw [if_neg (by simpa using h), hp]

/-! ### Per-record lemmas for the bulk loop -/

theorem recordStep_short {provider : String → Option (List Int)} {now : Nat}
    {s : IngestState} {t : Ticket} (h : isShort (jsTrim t.summary) = true) :
    recordStep provider now s t =
      { s with shortSummaries := s.shortSummaries + 1, processed := s.processed + 1 } := by
  unfold recordStep
  rw [if_pos h]

theorem recordStep_dup {provider : String → Option (List Int)} {now : Nat}
    {s : IngestState} {t : Ticket} (hq : qualifies t = true)
    (hex : storeExists s.store t.id = true) :
    recordStep provider now s t =
      { s with skipped := s.skipped + 1, processed := s.processed + 1 } := by
  unfold recordStep
  unfold qualifies at hq
  rw [if_neg (by simp at hq; simp [hq]), if_pos hex]

theorem recordStep_fresh_fail {provider : String → Option (List Int)} {now : Nat}
    {s : IngestState} {t : Ticket} (hq : qualifies t = true)
    (hex : storeExists s.store t.id = false)
    (hp : provider (jsTrim t.summary) = none) :
    recordStep provider now s t =
      { s with providerCalls := s.providerCalls ++ [jsTrim t.summary],
               processed := s.processed + 1 } := by
  have hq' : isShort (jsTrim t.summary) = false := by
    unfold qualifies at hq; simpa using hq
  unfold recordStep
  rw [if_neg (by simp [hq']), if_neg (by simp [hex])]
  rw [embedHandler_providerFail (by rw [jsTrim_idem]; exact hq') (by rw [jsTrim_idem]; exact hp)]
  simp [embedOk, jsTrim_idem]

theorem recordStep_fresh_ok {provider : String → Option (List Int)} {now : Nat}
    {s : IngestState} {t : Ticket} {embedding : List Int} (hq : qualifies t = true)
    (hex : storeExists s.store t.id = false)
    (hp : provider (jsTrim t.summary) = some embedding) :
    recordStep provider now s t =
      { s with store := storeUpsert s.store t.id (jsTrim t.summary) embedding now,
               providerCalls := s.providerCalls ++ [jsTrim t.summary],
               inserted := s.inserted + 1,
               processed := s.processed + 1 } := by
  have hq' : isShort (jsTrim t.summary) = false := by
    unfold qualifies at hq; simpa using hq
  unfold recordStep
  rw [if_neg (by simp [hq']), if_neg (by simp [hex])]
  rw [embedHandler_success (by rw [jsTrim_idem]; exact hq') (by rw [jsTrim_idem]; exact hp)]
  simp [embedOk, jsTrim_idem]

/-- `processed` advances by exactly one per record, in every branch. -/
theorem recordStep_processed (provider : String → Option (List Int)) (now : Nat)
    (s : IngestState) (t : Ticket) :
    (recordStep provider now s t).processed = s.processed + 1 := by
  unfold recordStep
  by_cases h₁ : isShort (jsTrim t.summary) = true
  · rw [if_pos h₁]
  · rw [if_neg h₁]
    by_cases h₂ : storeExists s.store t.id = true
    · rw [if_pos h₂]
    · rw [if_neg h₂]
      by_cases h₃ : embedOk (embedHandler provider now s.store t.id (jsTrim t.summary)).result = true
      · simp only [h₃, if_pos]
      · simp only [h₃, if_neg, Bool.false_eq_true, not_false_eq_true]

/-- The store only grows keys: any key present before a record step is
present after it. -/
theorem recordStep_store_mono {provider : String → Option (List Int)} {now : Nat}
    {s : IngestState} {t : Ticket} {k : Nat}
    (h : storeExists s.store k = true) :
    storeExists (recordStep provider now s t).store k = true := by
  unfold recordStep
  by_cases h₁ : isShort (jsTrim t.summary) = true
  · rw [if_pos h₁]; exact h
  · rw [if_neg h₁]
    by_cases h₂ : storeExists s.store t.id = true
    · rw [if_pos h₂]; exact h
    · rw [if_neg h₂]
      by_cases h₃ : provider (jsTrim t.summary) = none
      · rw [embedHandler_providerFail (by rw [jsTrim_idem]; simpa using h₁)
              (by rw [jsTrim_idem]; exact h₃)]
        simpa using h
      · rcases Option.ne_none_iff_exists.mp h₃ with ⟨embedding, hp⟩
        rw [embedHandler_success (by rw [jsTrim_idem]; simpa using h₁)
              (by rw [jsTrim_idem]; exact hp.symm)]
        simpa [embedOk, jsTrim_idem] using
          storeExists_upsert_mono t.id (jsTrim t.summary) embedding now h

/-- A record step adds no key other than the record's own id. -/
theorem recordStep_store_sub {provider : String → Option (List Int)} {now : Nat}
    {s : IngestState} {t : Ticket} {k : Nat}
    (h : storeExists (recordStep provider now s t).store k = true) :
    storeExists s.store k = true ∨ k = t.id := by
  unfold recordStep at h
  by_cases h₁ : isShort (jsTrim t.summary) = true
  · rw [if_pos h₁] at h; exact Or.inl h
  · rw [if_neg h₁] at h
    by_cases h₂ : storeExists s.store t.id = true
    · rw [if_pos h₂] at h; exact Or.inl h
    · rw [if_neg h₂] at h
      by_cases h₃ : provider (jsTrim t.summary) = none
      · rw [embedHandler_providerFail (by rw [jsTrim_idem]; simpa using h₁)
              (by rw [jsTrim_idem]; exact h₃)] at h
        exact Or.inl (by simpa using h)
      · rcases Option.ne_none_iff_exists.mp h₃ with ⟨embedding, hp⟩
        rw [embedHandler_success (by rw [jsTrim_idem]; simpa using h₁)
              (by rw [jsTrim_idem]; exact hp.symm)] at h
        simp [embedOk, jsTrim_idem] at h
        exact storeExists_upsert_sub h

/-- A qualifying fresh record whose provider call succeeds ends up in
the store. -/
theorem recordStep_covers {provider : String → Option (List Int)} {now : Nat}
    {s : IngestState} {t : Ticket} (hq : qualifies t = true)
    (hp : (provider (jsTrim t.summary)).isSome = true) :
    storeExists (recordStep provider now s t).store t.id = true := by
  by_cases hex : storeExists s.store t.id = true
  · exact recordStep_store_mono hex
  · rcases Option.isSome_iff_exists.mp hp with ⟨embedding, hpe⟩
    rw [recordStep_fresh_ok hq (by simpa using hex) hpe]
    exact storeExists_upsert_self _ _ _ _ _

/-- The duplicate-row invariant is preserved by every record step. -/
theorem recordStep_keysNodup {provider : String → Option (List Int)} {now : Nat}
    {s : IngestState} {t : Ticket} (h : keysNodup s.store) :
    keysNodup (recordStep provider now s t).store := by
  unfold recordStep
  by_cases h₁ : isShort (jsTrim t.summary) = true
  · rw [if_pos h₁]; exact h
  · rw [if_neg h₁]
    by_cases h₂ : storeExists s.store t.id = true
    · rw [if_pos h₂]; exact h
    · rw [if_neg h₂]
      by_cases h₃ : provider (jsTrim t.summary) = none
      · rw [embedHandler_providerFail (by rw [jsTrim_idem]; simpa using h₁)
              (by rw [jsTrim_idem]; exact h₃)]
        exact h
      · rcases Option.ne_none_iff_exists.mp h₃ with ⟨embedding, hp⟩
        rw [embedHandler_success (by rw [jsTrim_idem]; simpa using h₁)
              (by rw [jsTrim_idem]; exact hp.symm)]
        simpa [embedOk, jsTrim_idem] using
          keysNodup_upsert t.id (jsTrim t.summary) embedding now h

/-! ### Page-level lemmas -/

theorem processTickets_nil (provider : String → Option (List Int)) (now : Nat)
    (limit : Nat) (s : IngestState) :
    processTickets provider now limit s [] = (s, false) := rfl

theorem processTickets_cons (provider : String → Option (List Int)) (now : Nat)
    (limit : Nat) (s : IngestState) (t : Ticket) (ts : List Ticket) :
    processTickets provider now limit s (t :: ts) =
      if 0 < limit && limit ≤ (recordStep provider now s t).processed then
        (recordStep provider now s t, true)
      else processTickets provider now limit (recordStep provider now s t) ts := rfl

theorem processTickets_cons_zero (provider : String → Option (List Int)) (now : Nat)
    (s : IngestState) (t : Ticket) (ts : List Ticket) :
    processTickets provider now 0 s (t :: ts) =
      processTickets provider now 0 (recordStep provider now s t) ts := by
  rw [processTickets_cons]
  simp

/-- With no limit configured the early return never fires. -/
theorem processTickets_noStop (provider : String → Option (List Int)) (now : Nat)
    (s : IngestState) (ts : List Ticket) :
    (processTickets provider now 0 s ts).2 = false := by
  induction ts generalizing s with
  | nil => rfl
  | cons t ts ih =>
      rw [processTickets_cons_zero]
      exact ih _

theorem processTickets_store_mono {provider : String → Option (List Int)} {now : Nat}
    {limit : Nat} {k : Nat} :
    ∀ {s : IngestState} (ts : List Ticket), storeExists s.store k = true →
      storeExists (processTickets provider now limit s ts).1.store k = true := by
  intro s ts
  induction ts generalizing s with
  | nil => intro h; exact h
  | cons t ts ih =>
      intro h
      unfold processTickets
      by_cases hc : (0 < limit && limit ≤ (recordStep provider now s t).processed) = true
      · rw [if_pos hc]
        exact recordStep_store_mono h
      · rw [if_neg hc]
        exact ih (recordStep_store_mono h)

theorem processTickets_keysNodup {provider : String → Option (List Int)} {now : Nat}
    {limit : Nat} :
    ∀ {s : IngestState} (ts : List Ticket), keysNodup s.store →
      keysNodup (processTickets provider now limit s ts).1.store := by
  intro s ts
  induction ts generalizing s with
  | nil => intro h; exact h
  | cons t ts ih =>
      intro h
      unfold processTickets
      by_cases hc : (0 < limit && limit ≤ (recordStep provider now s t).processed) = true
      · rw [if_pos hc]
        exact recordStep_keysNodup h
      · rw [if_neg hc]
        exact ih (recordStep_keysNodup h)

/-- Every qualifying record of a page processed without a limit whose
provider call succeeds is present in the store afterwards. -/
theorem processTickets_covers {provider : String → Option (List Int)} {now : Nat} :
    ∀ {s : IngestState} (ts : List Ticket), ∀ t ∈ ts, qualifies t = true →
      (provider (jsTrim t.summary)).isSome = true →
      storeExists (processTickets provider now 0 s ts).1.store t.id = true := by
  intro s ts
  induction ts generalizing s with
  | nil => intro t ht; cases ht
  | cons u ts ih =>
      intro t ht hq hp
      rw [processTickets_cons_zero]
      rcases List.mem_cons.mp ht with h₁ | h₂
      · subst h₁
        exact processTickets_store_mono ts (recordStep_covers hq hp)
      · exact ih t h₂ hq hp

/-- When every qualifying record of the page is already stored, the
page contributes only duplicate-skips and short-skips: nothing is
inserted, the store and the provider-call log are untouched. -/
theorem processTickets_allDup {provider : String → Option (List Int)} {now : Nat} :
    ∀ {s : IngestState} (ts : List Ticket),
      (∀ t ∈ ts, qualifies t = true → storeExists s.store t.id = true) →
      (processTickets provider now 0 s ts).1.store = s.store ∧
      (processTickets provider now 0 s ts).1.inserted = s.inserted ∧
      (processTickets provider now 0 s ts).1.skipped =
        s.skipped + ts.countP qualifies ∧
      (processTickets provider now 0 s ts).1.shortSummaries =
        s.shortSummaries + ts.countP (fun t => !qualifies t) ∧
      (processTickets provider now 0 s ts).1.processed = s.processed + ts.length ∧
      (processTickets provider now 0 s ts).1.providerCalls = s.providerCalls := by
  intro s ts
  induction ts generalizing s with
  | nil => intro _; refine ⟨rfl, rfl, ?_, ?_, rfl, rfl⟩ <;> simp [processTickets]
  | cons t ts ih =>
      intro hall
      unfold processTickets
      simp only [Nat.lt_irrefl, decide_False, Bool.false_and, Bool.false_eq_true,
        if_neg, ite_false]
      by_cases hq : qualifies t = true
      · have hex : storeExists s.store t.id = true :=
          hall t (List.mem_cons_self t ts) hq
        rw [recordStep_dup hq hex]
        have ih' := @ih { s with skipped := s.skipped + 1, processed := s.processed + 1 }
          (fun v hv hvq => hall v (List.mem_cons_of_mem t hv) hvq)
        rcases ih' with ⟨h1, h2, h3, h4, h5, h6⟩
        refine ⟨h1, h2, ?_, ?_, ?_, h6⟩
        · rw [h3]; simp [List.countP_cons, hq]; omega
        · rw [h4]; simp [List.countP_cons, hq]
        · rw [h5]; simp [List.length_cons]; omega
      · have hshort : isShort (jsTrim t.summary) = true := by
          unfold qualifies at hq; simpa using hq
        rw [recordStep_short hshort]
        have ih' := @ih { s with shortSummaries := s.shortSummaries + 1, processed := s.processed + 1 }
          (fun v hv hvq => hall v (List.mem_cons_of_mem t hv) hvq)
        rcases ih' with ⟨h1, h2, h3, h4, h5, h6⟩
        refine ⟨h1, h2, ?_, ?_, ?_, h6⟩
        · rw [h3]; simp [List.countP_cons, hq]
        · rw [h4]; simp [List.countP_cons, hq]; omega
        · rw [h5]; simp [List.length_cons]; omega

/-- Without a limit, processing a concatenation of two record lists is
processing the first and then the second. -/
theorem processTickets_append (provider : String → Option (List Int)) (now : Nat)
    (s : IngestState) (ts₁ ts₂ : List Ticket) :
    processTickets provider now 0 s (ts₁ ++ ts₂) =
      processTickets provider now 0 (processTickets provider now 0 s ts₁).1 ts₂ := by
  induction ts₁ generalizing s with
  | nil => rfl
  | cons t ts ih =>
      rw [List.cons_append, processTickets_cons_zero, processTickets_cons_zero]
      exact ih _

theorem processTickets_processed_mono (provider : String → Option (List Int))
    (now : Nat) (limit : Nat) :
    ∀ {s : IngestState} (ts : List Ticket),
      s.processed ≤ (processTickets provider now limit s ts).1.processed := by
  intro s ts
  induction ts generalizing s with
  | nil => exact Nat.le_refl _
  | cons t ts ih =>
      rw [processTickets_cons]
      by_cases hc : (0 < limit && limit ≤ (recordStep provider now s t).processed) = true
      · rw [if_pos hc]
        have h2 := recordStep_processed provider now s t
        dsimp only
        omega
      · rw [if_neg hc]
        have h2 := recordStep_processed provider now s t
        calc s.processed ≤ (recordStep provider now s t).processed := by omega
          _ ≤ _ := ih

/-- A nonempty page strictly advances the processed counter. -/
theorem processTickets_processed_pos (provider : String → Option (List Int))
    (now : Nat) (limit : Nat) (s : IngestState) (t : Ticket) (ts : List Ticket) :
    s.processed + 1 ≤ (processTickets provider now limit s (t :: ts)).1.processed := by
  rw [processTickets_cons]
  have h2 := recordStep_processed provider now s t
  by_cases hc : (0 < limit && limit ≤ (recordStep provider now s t).processed) = true
  · rw [if_pos hc]
    dsimp only
    omega
  · rw [if_neg hc]
    calc s.processed + 1 = (recordStep provider now s t).processed := h2.symm
      _ ≤ _ := processTickets_processed_mono provider now limit ts

/-- The limit check: starting strictly below a positive limit, a page
either stops exactly when the counter reaches the limit, or finishes
still strictly below it. -/
theorem processTickets_limit {provider : String → Option (List Int)} {now : Nat}
    {limit : Nat} (hl : 0 < limit) :
    ∀ {s : IngestState} (ts : List Ticket), s.processed < limit →
      ((processTickets provider now limit s ts).2 = true →
        (processTickets provider now limit s ts).1.processed = limit) ∧
      ((processTickets provider now limit s ts).2 = false →
        (processTickets provider now limit s ts).1.processed < limit) := by
  intro s ts
  induction ts generalizing s with
  | nil =>
      intro hs
      exact ⟨fun h => by simp [processTickets] at h, fun _ => hs⟩
  | cons t ts ih =>
      intro hs
      rw [processTickets_cons]
      by_cases hc : (0 < limit && limit ≤ (recordStep provider now s t).processed) = true
      · rw [if_pos hc]
        refine ⟨fun _ => ?_, fun h => by simp at h⟩
        simp only [Bool.and_eq_true, decide_eq_true_eq] at hc
        have h1 : (recordStep provider now s t).processed = s.processed + 1 :=
          recordStep_processed provider now s t
        dsimp only
        omega
      · rw [if_neg hc]
        apply ih
        simp only [Bool.and_eq_true, decide_eq_true_eq, not_and, not_le] at hc
        have h1 : (recordStep provider now s t).processed = s.processed + 1 :=
          recordStep_processed provider now s t
        have h2 := hc hl
        omega

/-- Processing a page of fresh (not yet stored), qualifying records
with pairwise-distinct ids and no limit: every record incurs an ingest
attempt, the successes are exactly the provider successes, nothing is
skipped, and the only keys added are ids of the page. -/
theorem processTickets_fresh {provider : String → Option (List Int)} {now : Nat} :
    ∀ {s : IngestState} (ts : List Ticket),
      (∀ t ∈ ts, qualifies t = true) →
      (∀ t ∈ ts, storeExists s.store t.id = false) →
      (ts.map (fun t => t.id)).Nodup →
      (processTickets provider now 0 s ts).1.inserted =
        s.inserted + ts.countP (fun t => (provider (jsTrim t.summary)).isSome) ∧
      (processTickets provider now 0 s ts).1.skipped = s.skipped ∧
      (processTickets provider now 0 s ts).1.shortSummaries = s.shortSummaries ∧
      (processTickets provider now 0 s ts).1.processed = s.processed + ts.length ∧
      (∀ t ∈ ts, (provider (jsTrim t.summary)).isSome = true →
        storeExists (processTickets provider now 0 s ts).1.store t.id = true) := by
  intro s ts
  induction ts generalizing s with
  | nil => intro _ _ _; refine ⟨by simp [processTickets], rfl, rfl, rfl, ?_⟩
           intro t ht; cases ht
  | cons t ts ih =>
      intro hq hfresh hnodup
      rw [processTickets_cons_zero]
      have hqt : qualifies t = true := hq t (List.mem_cons_self t ts)
      have hft : storeExists s.store t.id = false := hfresh t (List.mem_cons_self t ts)
      have hnd : t.id ∉ ts.map (fun u => u.id) := by
        rw [List.map_cons] at hnodup
        exact (List.nodup_cons.mp hnodup).1
      have hnodup' : (ts.map (fun u => u.id)).Nodup := by
        rw [List.map_cons] at hnodup
        exact (List.nodup_cons.mp hnodup).2
      cases hp : provider (jsTrim t.summary) with
      | none =>
          rw [recordStep_fresh_fail hqt hft hp]
          have ih' := @ih { s with providerCalls := s.providerCalls ++ [jsTrim t.summary], processed := s.processed + 1 }
            (fun u hu => hq u (List.mem_cons_of_mem t hu))
            (fun u hu => hfresh u (List.mem_cons_of_mem t hu))
            hnodup'
          rcases ih' with ⟨h1, h2, h3, h4, h5⟩
          refine ⟨?_, h2, h3, ?_, ?_⟩
          · rw [h1]; simp [List.countP_cons, hp]
          · rw [h4]; dsimp only; simp [List.length_cons]; omega
          · intro u hu hpu
            rcases List.mem_cons.mp hu with h₁ | h₂
            · subst h₁
              rw [hp] at hpu
              simp at hpu
            · exact h5 u h₂ hpu
      | some embedding =>
          rw [recordStep_fresh_ok hqt hft hp]
          have hfresh' : ∀ u ∈ ts,
              storeExists (storeUpsert s.store t.id (jsTrim t.summary) embedding now) u.id = false := by
            intro u hu
            cases hcon : storeExists (storeUpsert s.store t.id (jsTrim t.summary) embedding now) u.id with
            | false => rfl
            | true =>
                exfalso
                rcases storeExists_upsert_sub hcon with h₁ | h₂
                · rw [hfresh u (List.mem_cons_of_mem t hu)] at h₁
                  simp at h₁
                · exact hnd (h₂ ▸ List.mem_map.mpr ⟨u, hu, rfl⟩)
          have ih' := @ih { s with store := storeUpsert s.store t.id (jsTrim t.summary) embedding now, providerCalls := s.providerCalls ++ [jsTrim t.summary], inserted := s.inserted + 1, processed := s.processed + 1 }
            (fun u hu => hq u (List.mem_cons_of_mem t hu))
            (fun u hu => hfresh' u hu)
            hnodup'
          rcases ih' with ⟨h1, h2, h3, h4, h5⟩
          refine ⟨?_, h2, h3, ?_, ?_⟩
          · rw [h1]; dsimp only; simp [List.countP_cons, hp]; omega
          · rw [h4]; dsimp only; simp [List.length_cons]; omega
          · intro u hu hpu
            rcases List.mem_cons.mp hu with h₁ | h₂
            · subst h₁
              apply processTickets_store_mono
              exact storeExists_upsert_self _ _ _ _ _
            · exact h5 u h₂ hpu

/-- The per-record classification accounting: the three outcome
counters together grow by at most one per record. -/
theorem recordStep_counters (provider : String → Option (List Int)) (now : Nat)
    (s : IngestState) (t : Ticket) :
    (recordStep provider now s t).inserted + (recordStep provider now s t).skipped +
        (recordStep provider now s t).shortSummaries ≤
      s.inserted + s.skipped + s.shortSummaries + 1 := by
  unfold recordStep
  by_cases h₁ : isShort (jsTrim t.summary) = true
  · rw [if_pos h₁]; dsimp only; omega
  · rw [if_neg h₁]
    by_cases h₂ : storeExists s.store t.id = true
    · rw [if_pos h₂]; dsimp only; omega
    · rw [if_neg h₂]
      by_cases h₃ : embedOk (embedHandler provider now s.store t.id (jsTrim t.summary)).result = true
      · rw [if_pos h₃]; dsimp only; omega
      · rw [if_neg h₃]; dsimp only; omega

/-- The counter invariant `inserted + skipped + shortSummaries ≤ processed`
is preserved by every record step. -/
theorem recordStep_inv (provider : String → Option (List Int)) (now : Nat)
    (s : IngestState) (t : Ticket)
    (h : s.inserted + s.skipped + s.shortSummaries ≤ s.processed) :
    (recordStep provider now s t).inserted + (recordStep provider now s t).skipped +
        (recordStep provider now s t).shortSummaries ≤
      (recordStep provider now s t).processed := by
  have h1 := recordStep_counters provider now s t
  have h2 := recordStep_processed provider now s t
  omega

theorem processTickets_inv (provider : String → Option (List Int)) (now : Nat)
    (limit : Nat) :
    ∀ {s : IngestState} (ts : List Ticket),
      s.inserted + s.skipped + s.shortSummaries ≤ s.processed →
      (processTickets provider now limit s ts).1.inserted +
          (processTickets provider now limit s ts).1.skipped +
          (processTickets provider now limit s ts).1.shortSummaries ≤
        (processTickets provider now limit s ts).1.processed := by
  intro s ts
  induction ts generalizing s with
  | nil => intro h; exact h
  | cons t ts ih =>
      intro h
      unfold processTickets
      by_cases hc : (0 < limit && limit ≤ (recordStep provider now s t).processed) = true
      · rw [if_pos hc]
        exact recordStep_inv provider now s t h
      · rw [if_neg hc]
        exact ih (recordStep_inv provider now s t h)

/-! ### Run-level lemmas -/

theorem ingestPages_nil (provider : String → Option (List Int)) (now : Nat)
    (limit : Nat) (page : Nat) (s : IngestState) :
    ingestPages provider now limit page s [] = (s, [page], .completed) := rfl

theorem ingestPages_malformed (provider : String → Option (List Int)) (now : Nat)
    (limit : Nat) (page : Nat) (s : IngestState) (raw : String) (rest : List Page) :
    ingestPages provider now limit page s (.malformed raw :: rest) =
      (s, [page], .invalidJson raw) := rfl

theorem ingestPages_nonArray (provider : String → Option (List Int)) (now : Nat)
    (limit : Nat) (page : Nat) (s : IngestState) (rest : List Page) :
    ingestPages provider now limit page s (.nonArray :: rest) =
      (s, [page], .completed) := rfl

theorem ingestPages_records (provider : String → Option (List Int)) (now : Nat)
    (limit : Nat) (page : Nat) (s : IngestState) (ts : List Ticket) (rest : List Page) :
    ingestPages provider now limit page s (.records ts :: rest) =
      if ts.isEmpty then (s, [page], .completed)
      else if (processTickets provider now limit s ts).2 then
        ((processTickets provider now limit s ts).1, [page], .limitStop)
      else
        ((ingestPages provider now limit (page + 1)
            (processTickets provider now limit s ts).1 rest).1,
          page :: (ingestPages provider now limit (page + 1)
            (processTickets provider now limit s ts).1 rest).2.1,
          (ingestPages provider now limit (page + 1)
            (processTickets provider now limit s ts).1 rest).2.2) := rfl

/-- Without a limit, a nonempty page is fully processed and the loop
moves on to the next page. -/
theorem ingestPages_records_zero (provider : String → Option (List Int)) (now : Nat)
    (page : Nat) (s : IngestState) (ts : List Ticket) (rest : List Page)
    (h : ts.isEmpty = false) :
    ingestPages provider now 0 page s (.records ts :: rest) =
      ((ingestPages provider now 0 (page + 1)
          (processTickets provider now 0 s ts).1 rest).1,
        page :: (ingestPages provider now 0 (page + 1)
          (processTickets provider now 0 s ts).1 rest).2.1,
        (ingestPages provider now 0 (page + 1)
          (processTickets provider now 0 s ts).1 rest).2.2) := by
  rw [ingestPages_records, if_neg (by simp [h]), processTickets_noStop]
  simp

theorem ingestPages_store_mono {provider : String → Option (List Int)} {now : Nat}
    {limit : Nat} {k : Nat} :
    ∀ (pages : List Page) {page : Nat} {s : IngestState},
      storeExists s.store k = true →
      storeExists (ingestPages provider now limit page s pages).1.store k = true := by
  intro pages
  induction pages with
  | nil => intro page s h; exact h
  | cons p rest ih =>
      intro page s h
      cases p with
      | malformed raw => rw [ingestPages_malformed]; exact h
      | nonArray => rw [ingestPages_nonArray]; exact h
      | records ts =>
          rw [ingestPages_records]
          by_cases he : ts.isEmpty
          · rw [if_pos he]; exact h
          · rw [if_neg he]
            by_cases hs : (processTickets provider now limit s ts).2
            · rw [if_pos hs]
              exact processTickets_store_mono ts h
            · rw [if_neg hs]
              exact ih (processTickets_store_mono ts h)

theorem ingestPages_keysNodup {provider : String → Option (List Int)} {now : Nat}
    {limit : Nat} :
    ∀ (pages : List Page) {page : Nat} {s : IngestState},
      keysNodup s.store →
      keysNodup (ingestPages provider now limit page s pages).1.store := by
  intro pages
  induction pages with
  | nil => intro page s h; exact h
  | cons p rest ih =>
      intro page s h
      cases p with
      | malformed raw => rw [ingestPages_malformed]; exact h
      | nonArray => rw [ingestPages_nonArray]; exact h
      | records ts =>
          rw [ingestPages_records]
          by_cases he : ts.isEmpty
          · rw [if_pos he]; exact h
          · rw [if_neg he]
            by_cases hs : (processTickets provider now limit s ts).2
            · rw [if_pos hs]
              exact processTickets_keysNodup ts h
            · rw [if_neg hs]
              exact ih (processTickets_keysNodup ts h)

theorem ingestPages_inv {provider : String → Option (List Int)} {now : Nat}
    {limit : Nat} :
    ∀ (pages : List Page) {page : Nat} {s : IngestState},
      s.inserted + s.skipped + s.shortSummaries ≤ s.processed →
      (ingestPages provider now limit page s pages).1.inserted +
          (ingestPages provider now limit page s pages).1.skipped +
          (ingestPages provider now limit page s pages).1.shortSummaries ≤
        (ingestPages provider now limit page s pages).1.processed := by
  intro pages
  induction pages with
  | nil => intro page s h; exact h
  | cons p rest ih =>
      intro page s h
      cases p with
      | malformed raw => rw [ingestPages_malformed]; exact h
      | nonArray => rw [ingestPages_nonArray]; exact h
      | records ts =>
          rw [ingestPages_records]
          by_cases he : ts.isEmpty
          · rw [if_pos he]; exact h
          · rw [if_neg he]
            by_cases hs : (processTickets provider now limit s ts).2
            · rw [if_pos hs]
              exact processTickets_inv provider now limit ts h
            · rw [if_neg hs]
              exact ih (processTickets_inv provider now limit ts h)

/-- Every qualifying ticket of a well-formed, fully-traversed source is
stored by the end of an unbounded run, provided its provider call
succeeds. -/
theorem ingestPages_covers {provider : String → Option (List Int)} {now : Nat} :
    ∀ (pgs : List (List Ticket)) {page : Nat} {s : IngestState},
      (∀ ts ∈ pgs, ts.isEmpty = false) →
      ∀ ts ∈ pgs, ∀ t ∈ ts, qualifies t = true →
        (provider (jsTrim t.summary)).isSome = true →
        storeExists
          (ingestPages provider now 0 page s (pgs.map Page.records)).1.store t.id = true := by
  intro pgs
  induction pgs with
  | nil => intro page s _ ts hts; cases hts
  | cons q pgs ih =>
      intro page s hne ts hts t ht hq hp
      rw [List.map_cons,
        ingestPages_records_zero provider now page s q _ (hne q (List.mem_cons_self q pgs))]
      rcases List.mem_cons.mp hts with h₁ | h₂
      · subst h₁
        apply ingestPages_store_mono
        exact processTickets_covers ts t ht hq hp
      · exact ih (fun u hu => hne u (List.mem_cons_of_mem q hu)) ts h₂ t ht hq hp

/-- A full unbounded pass over a well-formed source whose qualifying
tickets are all already stored: every qualifying ticket is counted as
a duplicate skip, every other ticket as a short-text skip, nothing is
inserted, and the store is untouched. -/
theorem ingestPages_allDup {provider : String → Option (List Int)} {now : Nat} :
    ∀ (pgs : List (List Ticket)) {page : Nat} {s : IngestState},
      (∀ ts ∈ pgs, ts.isEmpty = false) →
      (∀ ts ∈ pgs, ∀ t ∈ ts, qualifies t = true → storeExists s.store t.id = true) →
      (ingestPages provider now 0 page s (pgs.map Page.records)).1.store = s.store ∧
      (ingestPages provider now 0 page s (pgs.map Page.records)).1.inserted = s.inserted ∧
      (ingestPages provider now 0 page s (pgs.map Page.records)).1.skipped =
        s.skipped + pgs.flatten.countP qualifies ∧
      (ingestPages provider now 0 page s (pgs.map Page.records)).1.shortSummaries =
        s.shortSummaries + pgs.flatten.countP (fun t => !qualifies t) ∧
      (ingestPages provider now 0 page s (pgs.map Page.records)).2.2 = .completed := by
  intro pgs
  induction pgs with
  | nil =>
      intro page s _ _
      rw [List.map_nil, ingestPages_nil]
      refine ⟨rfl, rfl, by simp, by simp, rfl⟩
  | cons q pgs ih =>
      intro page s hne hall
      rw [List.map_cons,
        ingestPages_records_zero provider now page s q _ (hne q (List.mem_cons_self q pgs))]
      have hq := @processTickets_allDup provider now s q (fun t ht => hall q (List.mem_cons_self q pgs) t ht)
      rcases hq with ⟨hst, hins, hskip, hshort, _, _⟩
      have hall' : ∀ ts ∈ pgs, ∀ t ∈ ts, qualifies t = true →
          storeExists (processTickets provider now 0 s q).1.store t.id = true := by
        intro ts hts t ht hqt
        rw [hst]
        exact hall ts (List.mem_cons_of_mem q hts) t ht hqt
      have ih' := @ih (page + 1) (processTickets provider now 0 s q).1
        (fun ts hts => hne ts (List.mem_cons_of_mem q hts)) hall'
      rcases ih' with ⟨g1, g2, g3, g4, g5⟩
      refine ⟨?_, ?_, ?_, ?_, ?_⟩
      · rw [g1, hst]
      · rw [g2, hins]
      · rw [g3, hskip, List.flatten_cons, List.countP_append]
        omega
      · rw [g4, hshort, List.flatten_cons, List.countP_append]
        omega
      · exact g5

/-- With a positive limit and the counter strictly below it, a run
never processes past the limit, reports exactly the limit when it
stops early, and fetches at most `limit - processed` pages. -/
theorem ingestPages_limit {provider : String → Option (List Int)} {now : Nat}
    {limit : Nat} (hl : 0 < limit) :
    ∀ (pages : List Page) {page : Nat} {s : IngestState}, s.processed < limit →
      (ingestPages provider now limit page s pages).1.processed ≤ limit ∧
      ((ingestPages provider now limit page s pages).2.2 = .limitStop →
        (ingestPages provider now limit page s pages).1.processed = limit) ∧
      (ingestPages provider now limit page s pages).2.1.length ≤ limit - s.processed := by
  intro pages
  induction pages with
  | nil =>
      intro page s hs
      rw [ingestPages_nil]
      exact ⟨Nat.le_of_lt hs, fun h => by simp at h, by simp; omega⟩
  | cons p rest ih =>
      intro page s hs
      cases p with
      | malformed raw =>
          rw [ingestPages_malformed]
          exact ⟨Nat.le_of_lt hs, fun h => by simp at h, by simp; omega⟩
      | nonArray =>
          rw [ingestPages_nonArray]
          exact ⟨Nat.le_of_lt hs, fun h => by simp at h, by simp; omega⟩
      | records ts =>
          rw [ingestPages_records]
          by_cases he : ts.isEmpty
          · rw [if_pos he]
            exact ⟨Nat.le_of_lt hs, fun h => by simp at h, by simp; omega⟩
          · rw [if_neg he]
            have hlim := @processTickets_limit provider now limit hl s ts hs
            by_cases hstop : (processTickets provider now limit s ts).2 = true
            · rw [if_pos hstop]
              have heq := hlim.1 hstop
              exact ⟨Nat.le_of_eq heq, fun _ => heq, by simp; omega⟩
            · rw [if_neg hstop]
              have hlt : (processTickets provider now limit s ts).1.processed < limit :=
                hlim.2 (Bool.eq_false_iff.mpr hstop)
              have hpos : s.processed + 1 ≤ (processTickets provider now limit s ts).1.processed := by
                cases ts with
                | nil => simp at he
                | cons t ts' => exact processTickets_processed_pos provider now limit s t ts'
              have ih' := @ih (page + 1) (processTickets provider now limit s ts).1 hlt
              rcases ih' with ⟨i1, i2, i3⟩
              refine ⟨i1, i2, ?_⟩
              simp only [List.length_cons]
              omega

/-! ### Handler-level projections -/

theorem ingestAllClosed_state (provider : String → Option (List Int)) (now : Nat)
    (limit : Nat) (store : List EmbeddingEntry) (pages : List Page) :
    (ingestAllClosed provider now limit store pages).state =
      (ingestPages provider now limit 1 (initState store) pages).1 := by
  unfold ingestAllClosed
  cases hout : (ingestPages provider now limit 1 (initState store) pages).2.2 <;>
    simp [hout]

theorem ingestAllClosed_fetchLog (provider : String → Option (List Int)) (now : Nat)
    (limit : Nat) (store : List EmbeddingEntry) (pages : List Page) :
    (ingestAllClosed provider now limit store pages).fetchLog =
      (ingestPages provider now limit 1 (initState store) pages).2.1 := by
  unfold ingestAllClosed
  cases hout : (ingestPages provider now limit 1 (initState store) pages).2.2 <;>
    simp [hout]

theorem ingestAllClosed_result_completed (provider : String → Option (List Int))
    (now : Nat) (limit : Nat) (store : List EmbeddingEntry) (pages : List Page)
    (h : (ingestPages provider now limit 1 (initState store) pages).2.2 = .completed) :
    (ingestAllClosed provider now limit store pages).result =
      .success (ingestPages provider now limit 1 (initState store) pages).1.inserted
        (ingestPages provider now limit 1 (initState store) pages).1.skipped
        (ingestPages provider now limit 1 (initState store) pages).1.shortSummaries
        none := by
  unfold ingestAllClosed
  simp [h]

theorem ingestAllClosed_result_limitStop (provider : String → Option (List Int))
    (now : Nat) (limit : Nat) (store : List EmbeddingEntry) (pages : List Page)
    (h : (ingestPages provider now limit 1 (initState store) pages).2.2 = .limitStop) :
    (ingestAllClosed provider now limit store pages).result =
      .success (ingestPages provider now limit 1 (initState store) pages).1.inserted
        (ingestPages provider now limit 1 (initState store) pages).1.skipped
        (ingestPages provider now limit 1 (initState store) pages).1.shortSummaries
        (some (stopNote limit)) := by
  unfold ingestAllClosed
  simp [h]

theorem ingestAllClosed_result_invalidJson (provider : String → Option (List Int))
    (now : Nat) (limit : Nat) (store : List EmbeddingEntry) (pages : List Page)
    (raw : String)
    (h : (ingestPages provider now limit 1 (initState store) pages).2.2 = .invalidJson raw) :
    (ingestAllClosed provider now limit store pages).result =
      .sourceError "CW returned invalid JSON" raw := by
  unfold ingestAllClosed
  simp [h]

/-- Without a limit the early-stop outcome is unreachable. -/
theorem ingestPages_zero_not_limitStop (provider : String → Option (List Int))
    (now : Nat) :
    ∀ (pages : List Page) (page : Nat) (s : IngestState),
      (ingestPages provider now 0 page s pages).2.2 ≠ .limitStop := by
  intro pages
  induction pages with
  | nil => intro page s h; rw [ingestPages_nil] at h; cases h
  | cons p rest ih =>
      intro page s h
      cases p with
      | malformed raw => rw [ingestPages_malformed] at h; cases h
      | nonArray => rw [ingestPages_nonArray] at h; cases h
      | records ts =>
          rw [ingestPages_records] at h
          by_cases he : ts.isEmpty
          · rw [if_pos he] at h; cases h
          · rw [if_neg he, processTickets_noStop] at h
            simp at h
            exact ih (page + 1) (processTickets provider now 0 s ts).1 h

/-- The full three-fetch run of a two-page source followed by the
empty page: three fetches in order, state as if the two pages were one
list of records, normal completion. -/
theorem ingestPages_run3 (provider : String → Option (List Int)) (now : Nat)
    (s : IngestState) (ts₁ ts₂ : List Ticket)
    (h1 : ts₁.isEmpty = false) (h2 : ts₂.isEmpty = false) :
    ingestPages provider now 0 1 s [.records ts₁, .records ts₂, .records []] =
      ((processTickets provider now 0 s (ts₁ ++ ts₂)).1, [1, 2, 3], .completed) := by
  rw [ingestPages_records_zero provider now 1 s ts₁ _ h1]
  rw [ingestPages_records_zero _ _ _ _ _ _ h2]
  rw [ingestPages_records]
  rw [if_pos (show ([] : List Ticket).isEmpty = true from rfl)]
  rw [processTickets_append]

/-- A single nonempty page followed by source exhaustion: two fetches,
normal completion. -/
theorem ingestPages_run1 (provider : String → Option (List Int)) (now : Nat)
    (s : IngestState) (ts : List Ticket) (h : ts.isEmpty = false) :
    ingestPages provider now 0 1 s [.records ts] =
      ((processTickets provider now 0 s ts).1, [1, 2], .completed) := by
  rw [ingestPages_records_zero provider now 1 s ts _ h]
  rw [ingestPages_nil]

/-- isShort is exactly the length test: the emptiness disjunct is
subsumed by length < 10. -/
theorem isShort_eq (s : String) : isShort s = decide (s.length < 10) := by
  unfold isShort
  by_cases he : s.isEmpty = true
  · have hs : s = "" := (String.isEmpty_iff s).mp he
    subst hs
    rfl
  · rw [Bool.not_eq_true] at he
    rw [he]
    simp

/-! ### Concrete fixtures for closed instances -/

/-- A provider that always succeeds, embedding a text as the one-entry
vector of its length. -/
def lenProvider : String → Option (List Int) := fun s => some [(s.length : Int)]

/-- A distance collaborator comparing vector heads. -/
def headDist : List Int → List Int → ℚ := fun a b => ((a.headD 0 - b.headD 0 : Int) : ℚ)

/-! ### Claims -/

/-- C7: for /embed, a summary whose trimmed length is exactly the
10-character threshold is accepted (given the provider answers), while
one of trimmed length 9 is rejected with the error message
`summary must be at least 10 characters` and providedLength equal to
the trimmed length. -/
theorem embed_threshold_boundary (provider : String → Option (List Int)) (now : Nat)
    (store : List EmbeddingEntry) (tn : Nat) (sOk sBad : String) (embedding : List Int)
    (hOk : (jsTrim sOk).length = 10) (hp : provider (jsTrim sOk) = some embedding)
    (hBad : (jsTrim sBad).length = 9) :
    (embedHandler provider now store tn sOk).result =
      .ok (storeId (storeUpsert store tn (jsTrim sOk) embedding now) tn) embedding.length ∧
    (embedHandler provider now store tn sBad).result =
      .validationError "summary must be at least 10 characters" 9 := by
  have h1 : isShort (jsTrim sOk) = false := by
    rw [isShort_eq, hOk]
    decide
  have h2 : isShort (jsTrim sBad) = true := by
    rw [isShort_eq, hBad]
    decide
  constructor
  · rw [embedHandler_success h1 hp]
  · rw [embedHandler_validation h2, hBad]

/-- C7, closed instance: the 10-character summary is accepted and the
9-character one rejected with providedLength 9. -/
theorem embed_threshold_boundary_spot :
    (embedHandler lenProvider 0 [] 7 "abcdefghij").result = .ok 0 1 ∧
    (embedHandler lenProvider 0 [] 7 "abcdefghi").result =
      .validationError "summary must be at least 10 characters" 9 := by
  have h := embed_threshold_boundary lenProvider 0 [] 7 "abcdefghij" "abcdefghi"
    [10] (by decide) (by decide) (by decide)
  exact ⟨h.1.trans (by decide), h.2⟩

/-- C8: a text whose trimmed form is below the threshold (empty
included) is rejected by /embed with no provider call and no store
write, and classified `shortSummaries` by the bulk loop with the state
otherwise untouched. -/
theorem short_text_no_side_effects (provider : String → Option (List Int)) (now : Nat)
    (store : List EmbeddingEntry) (tn : Nat) (summary : String)
    (s : IngestState) (t : Ticket)
    (h : (jsTrim summary).length < 10) (ht : (jsTrim t.summary).length < 10) :
    (embedHandler provider now store tn summary).result =
      .validationError "summary must be at least 10 characters" (jsTrim summary).length ∧
    (embedHandler provider now store tn summary).store = store ∧
    (embedHandler provider now store tn summary).providerCalls = [] ∧
    recordStep provider now s t =
      { s with shortSummaries := s.shortSummaries + 1, processed := s.processed + 1 } := by
  have h1 : isShort (jsTrim summary) = true := by
    rw [isShort_eq]
    exact decide_eq_true h
  have h2 : isShort (jsTrim t.summary) = true := by
    rw [isShort_eq]
    exact decide_eq_true ht
  rw [embedHandler_validation h1, recordStep_short h2]
  exact ⟨rfl, rfl, rfl, rfl⟩

/-- C8, closed instance: a whitespace-padded 5-character summary is
rejected with providedLength 5 and touches nothing. -/
theorem short_text_no_side_effects_spot :
    (embedHandler lenProvider 0 [] 3 "  short  ").result =
      .validationError "summary must be at least 10 characters" 5 ∧
    (embedHandler lenProvider 0 [] 3 "  short  ").store = [] ∧
    (embedHandler lenProvider 0 [] 3 "  short  ").providerCalls = [] ∧
    recordStep lenProvider 0 (initState []) ⟨3, "   "⟩ =
      { initState [] with shortSummaries := 1, processed := 1 } := by
  have h := short_text_no_side_effects lenProvider 0 [] 3 "  short  "
    (initState []) ⟨3, "   "⟩ (by decide) (by decide)
  exact ⟨h.1.trans (by decide), h.2.1, h.2.2.1, h.2.2.2⟩

/-- C9: /match answers a validated query with the stored rows ordered
by ascending distance to the query vector, capped at 5 results. -/
theorem match_sorted_top5 (provider : String → Option (List Int))
    (dist : List Int → List Int → ℚ) (store : List EmbeddingEntry)
    (summary : String) (q : List Int)
    (hlen : 10 ≤ (jsTrim summary).length) (hp : provider (jsTrim summary) = some q) :
    matchHandler provider dist store summary =
      .ok (searchRows dist q store).length (searchRows dist q store) ∧
    (searchRows dist q store).Pairwise (fun a b => a.distance ≤ b.distance) ∧
    (searchRows dist q store).length ≤ 5 := by
  have hshort : isShort (jsTrim summary) = false := by
    rw [isShort_eq]
    simp
    omega
  refine ⟨?_, ?_, ?_⟩
  · unfold matchHandler
    unfold isShort at hshort
    rw [if_neg (by simpa using hshort), hp]
  · have hsorted := List.sorted_insertionSort rowLE
      (store.map (fun e => MatchRow.mk e.ticketNumber e.summary (dist q e.embedding)))
    unfold searchRows
    exact ((hsorted.sublist (List.take_sublist 5 _)).imp (fun hab => hab))
  · unfold searchRows
    exact List.length_take_le 5 _

/-- C9, closed instance: a three-row store is answered in ascending
distance order. -/
theorem match_sorted_top5_spot :
    matchHandler lenProvider headDist
        [⟨1, "s one", [5], 0⟩, ⟨2, "s two", [3], 0⟩, ⟨3, "s three", [9], 0⟩]
        "printer broken" =
      .ok 3 (searchRows headDist [14]
        [⟨1, "s one", [5], 0⟩, ⟨2, "s two", [3], 0⟩, ⟨3, "s three", [9], 0⟩]) ∧
    (searchRows headDist [14]
        [⟨1, "s one", [5], 0⟩, ⟨2, "s two", [3], 0⟩, ⟨3, "s three", [9], 0⟩]).Pairwise
      (fun a b => a.distance ≤ b.distance) ∧
    (searchRows headDist [14]
        [⟨1, "s one", [5], 0⟩, ⟨2, "s two", [3], 0⟩, ⟨3, "s three", [9], 0⟩]).length ≤ 5 := by
  have h := match_sorted_top5 lenProvider headDist
    [⟨1, "s one", [5], 0⟩, ⟨2, "s two", [3], 0⟩, ⟨3, "s three", [9], 0⟩]
    "printer broken" [14] (by decide) (by decide)
  exact ⟨h.1.trans (by decide), h.2.1, h.2.2⟩

/-- C5, counterexample: a payload that parses but is not a list
(`Page.nonArray`) does NOT produce the SourceError-shaped result the
claim demands — the run breaks out of the loop and reports a normal
success with zeroed counters. -/
theorem nonlist_page_counterexample :
    (ingestAllClosed lenProvider 0 0 [] [Page.nonArray]).result =
        .success 0 0 0 none ∧
      (ingestAllClosed lenProvider 0 0 [] [Page.nonArray]).fetchLog = [1] := by
  constructor
  · rfl
  · rfl

/-- C5, amended: a page whose payload fails JSON parsing terminates
the invocation at once with the `sourceError` result carrying the raw
payload, with no further fetches and no state change; a payload that
parses to a non-list also stops fetching at once but terminates the
pass normally with a success report. -/
theorem source_error_handling (provider : String → Option (List Int)) (now : Nat)
    (limit : Nat) (store : List EmbeddingEntry) (raw : String) (rest : List Page) :
    ((ingestAllClosed provider now limit store (Page.malformed raw :: rest)).result =
        .sourceError "CW returned invalid JSON" raw ∧
      (ingestAllClosed provider now limit store (Page.malformed raw :: rest)).fetchLog = [1] ∧
      (ingestAllClosed provider now limit store (Page.malformed raw :: rest)).state =
        initState store) ∧
    ((ingestAllClosed provider now limit store (Page.nonArray :: rest)).result =
        .success 0 0 0 none ∧
      (ingestAllClosed provider now limit store (Page.nonArray :: rest)).fetchLog = [1]) := by
  refine ⟨⟨?_, ?_, ?_⟩, ?_, ?_⟩
  · exact ingestAllClosed_result_invalidJson provider now limit store _ raw
      (by rw [ingestPages_malformed])
  · rw [ingestAllClosed_fetchLog, ingestPages_malformed]
  · rw [ingestAllClosed_state, ingestPages_malformed]
  · rw [ingestAllClosed_result_completed provider now limit store _
      (by rw [ingestPages_nonArray]), ingestPages_nonArray]
    rfl
  · rw [ingestAllClosed_fetchLog, ingestPages_nonArray]

/-- C2, counterexample: a ticket whose id is already stored but whose
summary is short is classified `shortSummaries`, not `skipped` — the
short-text check runs before the duplicate check, so the claim's
universal classification as skippedDuplicate fails. -/
theorem dup_short_counterexample :
    storeExists (initState [⟨1, "stored summary", [0], 0⟩]).store 1 = true ∧
    (recordStep lenProvider 0 (initState [⟨1, "stored summary", [0], 0⟩])
        ⟨1, "short"⟩).skipped = 0 ∧
    (recordStep lenProvider 0 (initState [⟨1, "stored summary", [0], 0⟩])
        ⟨1, "short"⟩).shortSummaries = 1 := by
  refine ⟨by decide, by decide, by decide⟩

/-- C2, amended: a ticket whose id is already stored never triggers a
provider call or a store write; when additionally its trimmed summary
passes the length check, it is classified as a duplicate skip. -/
theorem dup_before_provider (provider : String → Option (List Int)) (now : Nat)
    (s : IngestState) (t : Ticket) (hex : storeExists s.store t.id = true) :
    (recordStep provider now s t).providerCalls = s.providerCalls ∧
    (recordStep provider now s t).store = s.store ∧
    (qualifies t = true →
      recordStep provider now s t =
        { s with skipped := s.skipped + 1, processed := s.processed + 1 }) := by
  by_cases hq : qualifies t = true
  · rw [recordStep_dup hq hex]
    exact ⟨rfl, rfl, fun _ => rfl⟩
  · have hs : isShort (jsTrim t.summary) = true := by
      unfold qualifies at hq
      simpa using hq
    rw [recordStep_short hs]
    exact ⟨rfl, rfl, fun hq2 => absurd hq2 hq⟩

/-- C2, closed instance: a stored, qualifying ticket is skipped as a
duplicate with no provider call. -/
theorem dup_before_provider_spot :
    (recordStep lenProvider 0 (initState [⟨2, "previously stored", [0], 0⟩])
        ⟨2, "qualifying summary"⟩).providerCalls = [] ∧
    recordStep lenProvider 0 (initState [⟨2, "previously stored", [0], 0⟩])
        ⟨2, "qualifying summary"⟩ =
      { initState [⟨2, "previously stored", [0], 0⟩] with skipped := 1, processed := 1 } := by
  have h := dup_before_provider lenProvider 0
    (initState [⟨2, "previously stored", [0], 0⟩]) ⟨2, "qualifying summary"⟩ (by decide)
  exact ⟨h.1, h.2.2 (by decide)⟩

/-- C4: a source of two nonempty pages then an empty page is fetched
exactly three times, pages 1, 2, 3 in order, and the report counters
are those of processing the concatenation of the two nonempty pages. -/
theorem pagination_termination (provider : String → Option (List Int)) (now : Nat)
    (store : List EmbeddingEntry) (ts₁ ts₂ : List Ticket)
    (h1 : ts₁.isEmpty = false) (h2 : ts₂.isEmpty = false) :
    (ingestAllClosed provider now 0 store
        [.records ts₁, .records ts₂, .records []]).fetchLog = [1, 2, 3] ∧
    (ingestAllClosed provider now 0 store
        [.records ts₁, .records ts₂, .records []]).state =
      (processTickets provider now 0 (initState store) (ts₁ ++ ts₂)).1 ∧
    (ingestAllClosed provider now 0 store
        [.records ts₁, .records ts₂, .records []]).result =
      .success (processTickets provider now 0 (initState store) (ts₁ ++ ts₂)).1.inserted
        (processTickets provider now 0 (initState store) (ts₁ ++ ts₂)).1.skipped
        (processTickets provider now 0 (initState store) (ts₁ ++ ts₂)).1.shortSummaries
        none := by
  have hrun := ingestPages_run3 provider now (initState store) ts₁ ts₂ h1 h2
  refine ⟨?_, ?_, ?_⟩
  · rw [ingestAllClosed_fetchLog, hrun]
  · rw [ingestAllClosed_state, hrun]
  · rw [ingestAllClosed_result_completed provider now 0 store _ (by rw [hrun]), hrun]

/-- C4, closed instance: two one-ticket pages then the empty page give
three fetches and two inserts. -/
theorem pagination_termination_spot :
    (ingestAllClosed lenProvider 0 0 []
        [.records [⟨1, "first page ticket"⟩], .records [⟨2, "second page ticket"⟩],
          .records []]).fetchLog = [1, 2, 3] ∧
    (ingestAllClosed lenProvider 0 0 []
        [.records [⟨1, "first page ticket"⟩], .records [⟨2, "second page ticket"⟩],
          .records []]).result = .success 2 0 0 none := by
  have h := pagination_termination lenProvider 0 []
    [⟨1, "first page ticket"⟩] [⟨2, "second page ticket"⟩] (by decide) (by decide)
  exact ⟨h.1, h.2.2.trans (by decide)⟩

/-- C6: in a page of ten fresh, qualifying records where the provider
fails for exactly one, the other nine are ingested and counted, the
failing one is not counted as inserted, and the pass completes
normally rather than aborting. -/
theorem partial_failure_tolerance (provider : String → Option (List Int)) (now : Nat)
    (store : List EmbeddingEntry) (ts : List Ticket)
    (hlen : ts.length = 10)
    (hq : ∀ t ∈ ts, qualifies t = true)
    (hfresh : ∀ t ∈ ts, storeExists store t.id = false)
    (hnodup : (ts.map (fun t => t.id)).Nodup)
    (hfail : ts.countP (fun t => (provider (jsTrim t.summary)).isNone) = 1) :
    (ingestAllClosed provider now 0 store [.records ts]).result =
      .success 9 0 0 none ∧
    (ingestAllClosed provider now 0 store [.records ts]).state.processed = 10 ∧
    (∀ t ∈ ts, (provider (jsTrim t.summary)).isSome = true →
      storeExists (ingestAllClosed provider now 0 store [.records ts]).state.store t.id
        = true) := by
  have hne : ts.isEmpty = false := by
    cases ts with
    | nil => simp at hlen
    | cons a l => rfl
  have hrun := ingestPages_run1 provider now (initState store) ts hne
  have hfr := @processTickets_fresh provider now (initState store) ts hq hfresh hnodup
  rcases hfr with ⟨hins, hskip, hshort, hproc, hcov⟩
  have hcompl := List.length_eq_countP_add_countP
    (fun t => (provider (jsTrim t.summary)).isNone) ts
  have hcongr : ts.countP (fun a => ¬(provider (jsTrim a.summary)).isNone) =
      ts.countP (fun t => (provider (jsTrim t.summary)).isSome) :=
    List.countP_congr (fun x _ => by cases provider (jsTrim x.summary) <;> simp)
  have hcount : ts.countP (fun t => (provider (jsTrim t.summary)).isSome) = 9 := by
    omega
  refine ⟨?_, ?_, ?_⟩
  · rw [ingestAllClosed_result_completed provider now 0 store _ (by rw [hrun]), hrun,
      hins, hskip, hshort, hcount]
    rfl
  · rw [ingestAllClosed_state, hrun, hproc, hlen]
    rfl
  · intro t ht hp
    rw [ingestAllClosed_state, hrun]
    exact hcov t ht hp

/-- Ten fresh qualifying tickets; the provider fails only on the
summary of ticket 4. -/
def tenTickets : List Ticket :=
  [⟨1, "summary number one"⟩, ⟨2, "summary number two"⟩, ⟨3, "summary number three"⟩,
   ⟨4, "summary number four"⟩, ⟨5, "summary number five"⟩, ⟨6, "summary number six"⟩,
   ⟨7, "summary number seven"⟩, ⟨8, "summary number eight"⟩, ⟨9, "summary number nine"⟩,
   ⟨10, "summary number ten"⟩]

def oneFailProvider : String → Option (List Int) :=
  fun s => if s = "summary number four" then none else some [7]

/-- C6, closed instance: nine of the ten tickets are inserted, the
run completes, and a succeeding ticket is stored. -/
theorem partial_failure_tolerance_spot :
    (ingestAllClosed oneFailProvider 0 0 [] [.records tenTickets]).result =
      .success 9 0 0 none ∧
    (ingestAllClosed oneFailProvider 0 0 [] [.records tenTickets]).state.processed = 10 ∧
    storeExists (ingestAllClosed oneFailProvider 0 0 [] [.records tenTickets]).state.store 1
      = true := by
  have h := partial_failure_tolerance oneFailProvider 0 [] tenTickets
    (by decide) (by decide) (by decide) (by decide) (by decide)
  exact ⟨h.1, h.2.1, h.2.2 ⟨1, "summary number one"⟩ (by decide) (by decide)⟩

/-- C3: with a positive limit the run never processes past the limit,
fetches at most `limit` pages, and any note in a success report is the
early-stop note, reported exactly when the counter hit the limit; with
limit 0 the cap never triggers and a success report carries no note. -/
theorem ingestion_limit (provider : String → Option (List Int)) (now : Nat)
    (store : List EmbeddingEntry) (pages : List Page) (limit : Nat) :
    (0 < limit →
      (ingestAllClosed provider now limit store pages).state.processed ≤ limit ∧
      (ingestAllClosed provider now limit store pages).fetchLog.length ≤ limit ∧
      (∀ i sk sh note,
        (ingestAllClosed provider now limit store pages).result =
            .success i sk sh (some note) →
          note = stopNote limit ∧
          (ingestAllClosed provider now limit store pages).state.processed = limit)) ∧
    (limit = 0 →
      ∀ i sk sh note,
        (ingestAllClosed provider now limit store pages).result = .success i sk sh note →
          note = none) := by
  constructor
  · intro hl
    have h0 : (initState store).processed < limit := hl
    have hrun := @ingestPages_limit provider now limit hl pages 1 (initState store) h0
    rcases hrun with ⟨ha, hb, hc⟩
    refine ⟨by rw [ingestAllClosed_state]; exact ha, ?_, ?_⟩
    · rw [ingestAllClosed_fetchLog]
      exact le_trans hc (Nat.sub_le _ _)
    · intro i sk sh note hres
      cases hout : (ingestPages provider now limit 1 (initState store) pages).2.2 with
      | completed =>
          rw [ingestAllClosed_result_completed provider now limit store pages hout] at hres
          cases hres
      | limitStop =>
          rw [ingestAllClosed_result_limitStop provider now limit store pages hout] at hres
          injection hres with h1 h2 h3 h4
          injection h4 with h5
          refine ⟨h5.symm, ?_⟩
          rw [ingestAllClosed_state]
          exact hb hout
      | invalidJson raw =>
          rw [ingestAllClosed_result_invalidJson provider now limit store pages raw hout]
            at hres
          cases hres
  · intro hl i sk sh note hres
    subst hl
    cases hout : (ingestPages provider now 0 1 (initState store) pages).2.2 with
    | completed =>
        rw [ingestAllClosed_result_completed provider now 0 store pages hout] at hres
        injection hres with h1 h2 h3 h4
        exact h4.symm
    | limitStop =>
        exact absurd hout (ingestPages_zero_not_limitStop provider now pages 1 (initState store))
    | invalidJson raw =>
        rw [ingestAllClosed_result_invalidJson provider now 0 store pages raw hout] at hres
        cases hres

/-- C3, closed instance: a three-ticket page with limit 2 stops at
exactly 2 processed records with the early-stop note, and the same
source with limit 0 reports no note. -/
theorem ingestion_limit_spot :
    (ingestAllClosed lenProvider 0 2 []
        [.records [⟨1, "ticket one summary"⟩, ⟨2, "ticket two summary"⟩,
          ⟨3, "ticket three summary"⟩]]).state.processed ≤ 2 ∧
    (ingestAllClosed lenProvider 0 2 []
        [.records [⟨1, "ticket one summary"⟩, ⟨2, "ticket two summary"⟩,
          ⟨3, "ticket three summary"⟩]]).fetchLog.length ≤ 2 ∧
    (ingestAllClosed lenProvider 0 2 []
        [.records [⟨1, "ticket one summary"⟩, ⟨2, "ticket two summary"⟩,
          ⟨3, "ticket three summary"⟩]]).result =
      .success 2 0 0 (some "Stopped early after processing 2 tickets") ∧
    (ingestAllClosed lenProvider 0 0 []
        [.records [⟨1, "ticket one summary"⟩, ⟨2, "ticket two summary"⟩,
          ⟨3, "ticket three summary"⟩]]).result = .success 3 0 0 none := by
  have h := (ingestion_limit lenProvider 0 []
    [.records [⟨1, "ticket one summary"⟩, ⟨2, "ticket two summary"⟩,
      ⟨3, "ticket three summary"⟩]] 2).1 (by decide)
  exact ⟨h.1, h.2.1, by decide, by decide⟩

/-- C10: every record step advances processed by one and lands in
exactly one classification (short, duplicate, or ingest attempt with
at most one insert); the classification-counter sum never exceeds
processed, inserted moves only when the embed attempt reports success,
and the invariant holds in the state of every finished run. -/
theorem counters_partition_invariant (provider : String → Option (List Int)) (now : Nat)
    (limit : Nat) (store : List EmbeddingEntry) (pages : List Page)
    (s : IngestState) (t : Ticket) :
    ((recordStep provider now s t).processed = s.processed + 1) ∧
    (recordStep provider now s t =
        { s with shortSummaries := s.shortSummaries + 1, processed := s.processed + 1 } ∨
      recordStep provider now s t =
        { s with skipped := s.skipped + 1, processed := s.processed + 1 } ∨
      ((recordStep provider now s t).shortSummaries = s.shortSummaries ∧
        (recordStep provider now s t).skipped = s.skipped ∧
        (recordStep provider now s t).inserted ≤ s.inserted + 1)) ∧
    (s.inserted + s.skipped + s.shortSummaries ≤ s.processed →
      (recordStep provider now s t).inserted + (recordStep provider now s t).skipped +
          (recordStep provider now s t).shortSummaries ≤
        (recordStep provider now s t).processed) ∧
    ((recordStep provider now s t).inserted ≠ s.inserted →
      (recordStep provider now s t).inserted = s.inserted + 1 ∧
      embedOk (embedHandler provider now s.store t.id (jsTrim t.summary)).result = true) ∧
    ((ingestAllClosed provider now limit store pages).state.inserted +
        (ingestAllClosed provider now limit store pages).state.skipped +
        (ingestAllClosed provider now limit store pages).state.shortSummaries ≤
      (ingestAllClosed provider now limit store pages).state.processed) := by
  refine ⟨recordStep_processed provider now s t, ?_, recordStep_inv provider now s t, ?_, ?_⟩
  · unfold recordStep
    by_cases h₁ : isShort (jsTrim t.summary) = true
    · rw [if_pos h₁]
      exact Or.inl rfl
    · rw [if_neg h₁]
      by_cases h₂ : storeExists s.store t.id = true
      · rw [if_pos h₂]
        exact Or.inr (Or.inl rfl)
      · rw [if_neg h₂]
        refine Or.inr (Or.inr ?_)
        by_cases h₃ : embedOk (embedHandler provider now s.store t.id (jsTrim t.summary)).result = true
        · rw [if_pos h₃]
          exact ⟨rfl, rfl, Nat.le_refl _⟩
        · rw [if_neg h₃]
          exact ⟨rfl, rfl, Nat.le_succ _⟩
  · intro hne
    unfold recordStep at hne ⊢
    by_cases h₁ : isShort (jsTrim t.summary) = true
    · rw [if_pos h₁] at hne
      exact absurd rfl hne
    · rw [if_neg h₁] at hne ⊢
      by_cases h₂ : storeExists s.store t.id = true
      · rw [if_pos h₂] at hne
        exact absurd rfl hne
      · rw [if_neg h₂] at hne ⊢
        by_cases h₃ : embedOk (embedHandler provider now s.store t.id (jsTrim t.summary)).result = true
        · rw [if_pos h₃]
          exact ⟨rfl, h₃⟩
        · rw [if_neg h₃] at hne
          exact absurd rfl hne
  · rw [ingestAllClosed_state]
    exact ingestPages_inv pages (Nat.le_refl 0)

/-- C10, closed instance: the invariant holds after a mixed run with a
short, a duplicate, and an inserted record. -/
theorem counters_partition_invariant_spot :
    (recordStep lenProvider 0 (initState []) ⟨1, "an acceptable summary"⟩).processed = 1 ∧
    ((ingestAllClosed lenProvider 0 0 [⟨5, "already in store", [1], 0⟩]
        [.records [⟨4, "ok"⟩, ⟨5, "stored qualifying summary"⟩,
          ⟨6, "fresh qualifying summary"⟩]]).state.inserted +
      (ingestAllClosed lenProvider 0 0 [⟨5, "already in store", [1], 0⟩]
        [.records [⟨4, "ok"⟩, ⟨5, "stored qualifying summary"⟩,
          ⟨6, "fresh qualifying summary"⟩]]).state.skipped +
      (ingestAllClosed lenProvider 0 0 [⟨5, "already in store", [1], 0⟩]
        [.records [⟨4, "ok"⟩, ⟨5, "stored qualifying summary"⟩,
          ⟨6, "fresh qualifying summary"⟩]]).state.shortSummaries ≤
      (ingestAllClosed lenProvider 0 0 [⟨5, "already in store", [1], 0⟩]
        [.records [⟨4, "ok"⟩, ⟨5, "stored qualifying summary"⟩,
          ⟨6, "fresh qualifying summary"⟩]]).state.processed) := by
  have h := counters_partition_invariant lenProvider 0 0 [⟨5, "already in store", [1], 0⟩]
    [.records [⟨4, "ok"⟩, ⟨5, "stored qualifying summary"⟩,
      ⟨6, "fresh qualifying summary"⟩]]
    (initState []) ⟨1, "an acceptable summary"⟩
  exact ⟨h.1, h.2.2.2.2⟩

theorem ingestIter_succ (provider : String → Option (List Int)) (now : Nat)
    (limit : Nat) (pages : List Page) (n : Nat) (store : List EmbeddingEntry) :
    ingestIter provider now limit pages (n + 1) store =
      ingestIter provider now limit pages n
        (ingestAllClosed provider now limit store pages).state.store := rfl

/-- C1: upsert semantics replace the row for an existing key in place;
the at-most-one-row-per-key invariant survives any number of
bulk-ingestion runs; and when a run over a well-formed source (all
pages nonempty, provider succeeding on every qualifying summary) is
repeated against the unchanged source, the second run inserts nothing
and counts every qualifying ticket as a duplicate skip. -/
theorem upsert_unique_and_idempotent (provider : String → Option (List Int))
    (now now₂ : Nat) (store : List EmbeddingEntry) (pgs : List (List Ticket))
    (hnody : keysNodup store)
    (hne : ∀ ts ∈ pgs, ts.isEmpty = false)
    (hprov : ∀ ts ∈ pgs, ∀ t ∈ ts, qualifies t = true →
      (provider (jsTrim t.summary)).isSome = true) :
    (∀ (st : List EmbeddingEntry) (tn : Nat) (summary : String)
        (embedding : List Int) (n : Nat), storeExists st tn = true →
      (storeUpsert st tn summary embedding n).length = st.length ∧
      storeFind (storeUpsert st tn summary embedding n) tn =
        some ⟨tn, summary, embedding, n⟩) ∧
    (∀ n : Nat, keysNodup (ingestIter provider now 0 (pgs.map Page.records) n store)) ∧
    ((ingestAllClosed provider now₂ 0
        (ingestAllClosed provider now 0 store (pgs.map Page.records)).state.store
        (pgs.map Page.records)).result =
      .success 0 (pgs.flatten.countP qualifies)
        (pgs.flatten.countP (fun t => !qualifies t)) none) := by
  refine ⟨?_, ?_, ?_⟩
  · intro st tn summary embedding n h
    exact storeUpsert_replaces summary embedding n h
  · have hiter : ∀ (n : Nat) (st : List EmbeddingEntry), keysNodup st →
        keysNodup (ingestIter provider now 0 (pgs.map Page.records) n st) := by
      intro n
      induction n with
      | zero => intro st h; exact h
      | succ m ih =>
          intro st h
          rw [ingestIter_succ]
          apply ih
          rw [ingestAllClosed_state]
          exact ingestPages_keysNodup (pgs.map Page.records) h
    exact fun n => hiter n store hnody
  · have hcov : ∀ ts ∈ pgs, ∀ t ∈ ts, qualifies t = true →
        storeExists
          (ingestAllClosed provider now 0 store (pgs.map Page.records)).state.store t.id
          = true := by
      intro ts hts t ht hq
      rw [ingestAllClosed_state]
      exact ingestPages_covers pgs hne ts hts t ht hq (hprov ts hts t ht hq)
    have hdup := @ingestPages_allDup provider now₂ pgs 1
      (initState (ingestAllClosed provider now 0 store (pgs.map Page.records)).state.store)
      hne (fun ts hts t ht hq => hcov ts hts t ht hq)
    rcases hdup with ⟨d1, d2, d3, d4, d5⟩
    rw [ingestAllClosed_result_completed provider now₂ 0 _ _ d5, d2, d3, d4]
    simp [initState]

/-- C1, closed instance: the second run over a one-page, two-ticket
source inserts nothing, skips both as duplicates, and the key column
stays duplicate-free across three runs. -/
theorem upsert_unique_and_idempotent_spot :
    (ingestAllClosed lenProvider 0 0
        (ingestAllClosed lenProvider 0 0 []
          (List.map Page.records [[⟨1, "first ticket summary"⟩, ⟨2, "second ticket summary"⟩]])).state.store
        (List.map Page.records [[⟨1, "first ticket summary"⟩, ⟨2, "second ticket summary"⟩]])).result =
      .success 0 2 0 none ∧
    keysNodup (ingestIter lenProvider 0 0
      (List.map Page.records [[⟨1, "first ticket summary"⟩, ⟨2, "second ticket summary"⟩]]) 3 []) := by
  have h := upsert_unique_and_idempotent lenProvider 0 0 []
    [[⟨1, "first ticket summary"⟩, ⟨2, "second ticket summary"⟩]]
    (by simp [keysNodup]) (by decide) (by decide)
  exact ⟨h.2.2.trans (by decide), h.2.1 3⟩

end EmbeddingsServer
